import Mathlib

/-!
Verification of the `subgraph` containment-decision algorithm.

The Python source (`src/subgraph.py`, class `Subgraph`) is shallowly embedded:
matrices become `List (List Int)` (row-major; `entry M i j` reads position
`(i, j)` with `0` for out-of-range reads, which square inputs never hit),
signatures become `List Nat`, Python sets become `Finset Nat`, and the one
Python exception that can occur on the adjacency-list path (an `IndexError`
from indexing past the shorter list) becomes an `Except String` value.
-/

namespace Subgraph

/-- Entry `(i, j)` of a row-major matrix; `0` when out of range
(square inputs, the only ones the algorithm is specified for, stay in range). -/
def entry (M : List (List Int)) (i j : Nat) : Int :=
  ((M[i]?.getD [])[j]?).getD 0

/-- Embeds `Subgraph._compute_column_signature`: for each column `col` of an
`n×n` matrix, `row_signature = Σ 2^i` over rows `i` with entry `1`, plus the
column weight `col * 2^n`. -/
def computeColumnSignature (M : List (List Int)) : List Nat :=
  let n := M.length
  (List.range n).map (fun col =>
    let rowSignature := (((List.range n).filter (fun i => entry M i col == 1)).map
      (fun i => 2 ^ i)).sum
    let colWeight := col * 2 ^ n
    rowSignature + colWeight)

/-- The dynamic-programming table of `Subgraph._compare_signature_sequences`:
`dpEntry a b i j` is the value Python stores at `dp[i][j]`
(`dp[i][j] = dp[i-1][j-1] + 1` when `a[i-1] == b[j-1]`, else `0`). -/
def dpEntry {α : Type} [DecidableEq α] (a b : List α) : Nat → Nat → Nat
  | 0, _ => 0
  | _ + 1, 0 => 0
  | i + 1, j + 1 =>
    match a[i]?, b[j]? with
    | some x, some y => if x = y then dpEntry a b i j + 1 else 0
    | _, _ => 0

/-- The running maximum Python tracks over the whole dp table
(`max_length` after both loops finish). -/
def maxRunLength {α : Type} [DecidableEq α] (a b : List α) : Nat :=
  ((List.range a.length).map (fun i =>
    ((List.range b.length).map (fun j => dpEntry a b (i + 1) (j + 1))).foldr max 0)).foldr max 0

/-- Embeds `Subgraph._compare_signature_sequences`: longest common contiguous
run of the two sequences is at least 2. -/
def compareSignatureSequences {α : Type} [DecidableEq α] (a b : List α) : Bool :=
  decide (2 ≤ maxRunLength a b)

/-- Embeds `Subgraph._find_signature_rotation_match`: short-circuits on
`n_A > n_B` (false) and `n_A == 0` (true), strips the column weights with
`mod 2^n`, then tries every cyclic rotation of B (and, when `n_A < n_B`,
every window of length `n_A` inside the rotation). -/
def findSignatureRotationMatch (sigA sigB : List Nat) : Bool :=
  let nA := sigA.length
  let nB := sigB.length
  if nB < nA then false
  else if nA = 0 then true
  else
    let rowSigsA := sigA.map (fun s => s % 2 ^ nA)
    let rowSigsB := sigB.map (fun s => s % 2 ^ nB)
    (List.range nB).any (fun rotation =>
      let rotatedB := rowSigsB.drop rotation ++ rowSigsB.take rotation
      if nA = nB then
        compareSignatureSequences rowSigsA rotatedB
      else
        (List.range (nB - nA + 1)).any (fun start =>
          compareSignatureSequences rowSigsA ((rotatedB.drop start).take nA)))

/-- `np.sum(A == 1)`: the number of entries literally equal to `1`. -/
def onesCount (M : List (List Int)) : Nat :=
  (M.map (fun row => (row.filter (fun x => x == 1)).length)).sum

/-- Embeds `Subgraph.compare_graphs`: signature sequences for both matrices,
rotation search in both directions, then the decision table with the
edge-count tie-break. -/
def compareGraphs (A B : List (List Int)) : String × Option (List (List Int)) :=
  let sigA := computeColumnSignature A
  let sigB := computeColumnSignature B
  let aInB := findSignatureRotationMatch sigA sigB
  let bInA := findSignatureRotationMatch sigB sigA
  if aInB && bInA then
    let onesA := onesCount A
    let onesB := onesCount B
    if onesA < onesB then ("equal_keep_B", some B) else ("equal_keep_A", some A)
  else if aInB then ("keep_B", some B)
  else if bInA then ("keep_A", some A)
  else ("keep_both", none)

/-- Embeds `Subgraph.adjacency_matrix_to_list`: the out-neighbour set of node `i` is `{j < n | matrix[i][j] == 1}`. -/
def adjacencyMatrixToList (M : List (List Int)) : List (Finset Nat) :=
  let n := M.length
  (List.range n).map (fun i => (Finset.range n).filter (fun j => entry M i j = 1))

/-- The Python generator `all(adj_A[i].issubset(adj_B[i]) for i in range(len(adj_A)))`:
walks `xs` with its index, short-circuits on the first failed subset test, and
raises `IndexError` when it has to read `ys` past its end. -/
def subsetScan : List (Finset Nat) → List (Finset Nat) → Except String Bool
  | [], _ => .ok true
  | _ :: _, [] => .error "IndexError"
  | x :: xs, y :: ys => if x ⊆ y then subsetScan xs ys else .ok false

/-- Embeds `Subgraph.compare_graphs_with_adj_list` (the exact adjacency-list
path): Python evaluates `A_in_B`, then `B_in_A`, then decides; an exception in
either scan propagates to the caller, made explicit here as an error value. -/
def compareGraphsWithAdjList (A B : List (List Int)) :
    Except String (String × Option (List (List Int))) :=
  let adjA := adjacencyMatrixToList A
  let adjB := adjacencyMatrixToList B
  match subsetScan adjA adjB with
  | .error e => .error e
  | .ok aInB =>
    match subsetScan adjB adjA with
    | .error e => .error e
    | .ok bInA =>
      if aInB && bInA then .ok ("equal", some A)
      else if aInB then .ok ("keep_B", some B)
      else if bInA then .ok ("keep_A", some A)
      else .ok ("keep_both", none)

/-- Replacing every nonzero entry by `1` — the normalization the spec says the
code applies implicitly. Stated from the words of the spec, to be compared
with the actual `== 1` tests of the source. -/
def replaceNonzeroByOne (M : List (List Int)) : List (List Int) :=
  M.map (List.map (fun x => if x = 0 then 0 else 1))

/-- Replacing every entry other than `1` by `0` (and keeping the `1`s): the
normalization that the `== 1` tests in the source actually induce. -/
def keepExactOnes (M : List (List Int)) : List (List Int) :=
  M.map (List.map (fun x => if x = 1 then 1 else 0))

/-! ### Basic lemmas about the signature encoder -/

/-- The row part of a signature is the bit pattern of the column read in binary,
so it is strictly below `2 ^ n` whatever the filter keeps. -/
theorem pow_filter_sum_lt (p : Nat → Bool) (n : Nat) :
    (((List.range n).filter p).map (fun i => 2 ^ i)).sum < 2 ^ n := by
  induction n with
  | zero => simp
  | succ n ih =>
    rw [List.range_succ, List.filter_append, List.map_append, List.sum_append]
    by_cases hp : p n
    · simp only [List.filter_cons, hp, if_true, List.filter_nil, List.map_cons, List.map_nil,
        List.sum_cons, List.sum_nil]
      rw [pow_succ]
      omega
    · simp only [List.filter_cons, hp, if_false, List.filter_nil, List.map_nil, List.sum_nil,
        Bool.false_eq_true, Nat.add_zero]
      rw [pow_succ]
      omega

theorem computeColumnSignature_length (M : List (List Int)) :
    (computeColumnSignature M).length = M.length := by
  simp [computeColumnSignature]

theorem computeColumnSignature_getD (M : List (List Int)) (c : Nat) (h : c < M.length) :
    (computeColumnSignature M).getD c 0 =
      (((List.range M.length).filter (fun i => entry M i c == 1)).map (fun i => 2 ^ i)).sum
        + c * 2 ^ M.length := by
  simp only [computeColumnSignature, List.getD_eq_getElem?_getD, List.getElem?_map,
    List.getElem?_range h, Option.map_some', Option.getD_some]

end Subgraph

namespace Subgraph

/-- C1: for every square matrix, `_compute_column_signature` returns pairwise
distinct integers — the signature of each column lives in the disjoint numeric band
`[col * 2^n, (col+1) * 2^n)`, even when two columns carry identical bit
patterns. -/
theorem column_signatures_pairwise_distinct (M : List (List Int)) :
    (computeColumnSignature M).length = M.length ∧ (computeColumnSignature M).Nodup := by
  refine ⟨computeColumnSignature_length M, ?_⟩
  have hinj : Function.Injective (fun col =>
      (((List.range M.length).filter (fun i => entry M i col == 1)).map (fun i => 2 ^ i)).sum
        + col * 2 ^ M.length) := by
    intro c1 c2 h
    simp only at h
    have hpos : 0 < 2 ^ M.length := Nat.pos_pow_of_pos _ (by omega)
    have e1 := Nat.add_mul_div_right
      ((((List.range M.length).filter (fun i => entry M i c1 == 1)).map (fun i => 2 ^ i)).sum)
      c1 hpos
    have e2 := Nat.add_mul_div_right
      ((((List.range M.length).filter (fun i => entry M i c2 == 1)).map (fun i => 2 ^ i)).sum)
      c2 hpos
    rw [Nat.div_eq_of_lt (pow_filter_sum_lt _ _)] at e1 e2
    have := congrArg (fun t => t / 2 ^ M.length) h
    simp only at this
    rw [e1, e2] at this
    omega
  simp only [computeColumnSignature]
  exact List.Nodup.map hinj (List.nodup_range _)

/-- C8: when columns `c1 < c2` of a square matrix have identical bit patterns,
their signatures still differ by exactly `(c2 - c1) * 2 ^ n`. -/
theorem signature_positional_separation (M : List (List Int)) (c1 c2 : Nat)
    (h12 : c1 < c2) (h2 : c2 < M.length)
    (hcols : ∀ i ∈ List.range M.length, entry M i c1 = entry M i c2) :
    (computeColumnSignature M).getD c2 0 =
      (computeColumnSignature M).getD c1 0 + (c2 - c1) * 2 ^ M.length := by
  rw [computeColumnSignature_getD M c1 (lt_trans h12 h2), computeColumnSignature_getD M c2 h2]
  have hfilter : (List.range M.length).filter (fun i => entry M i c2 == 1)
      = (List.range M.length).filter (fun i => entry M i c1 == 1) :=
    List.filter_congr (fun i hi => by rw [hcols i hi])
  rw [hfilter]
  have hK : c2 * 2 ^ M.length = (c2 - c1) * 2 ^ M.length + c1 * 2 ^ M.length := by
    rw [← Nat.add_mul, Nat.sub_add_cancel (le_of_lt h12)]
  omega

/-- Witness for C8 at the all-ones 2×2 matrix: columns 0 and 1 share the
pattern `[1,1]`, and the signatures are `3` and `3 + 1 * 4 = 7`. -/
theorem signature_positional_separation_witness :
    (computeColumnSignature [[1, 1], [1, 1]]).getD 1 0 =
      (computeColumnSignature [[1, 1], [1, 1]]).getD 0 0 + (1 - 0) * 2 ^ 2 :=
  signature_positional_separation [[1, 1], [1, 1]] 0 1 (by decide)
    (by decide) (by decide)

/-! ### Characterizing the run-match comparator -/

theorem le_foldr_max {k : Nat} (hk : 0 < k) :
    ∀ l : List Nat, k ≤ l.foldr max 0 ↔ ∃ x ∈ l, k ≤ x := by
  intro l
  induction l with
  | nil => simp; omega
  | cons x t ih =>
    simp only [List.foldr_cons, le_max_iff, ih, List.mem_cons]
    constructor
    · rintro (h | ⟨y, hy, hky⟩)
      · exact ⟨x, Or.inl rfl, h⟩
      · exact ⟨y, Or.inr hy, hky⟩
    · rintro ⟨y, (rfl | hy), hky⟩
      · exact Or.inl hky
      · exact Or.inr ⟨y, hy, hky⟩

theorem one_le_dpEntry_iff {α : Type} [DecidableEq α] (a b : List α) (i j : Nat) :
    1 ≤ dpEntry a b i j ↔
      ∃ i' j' x, i = i' + 1 ∧ j = j' + 1 ∧ a[i']? = some x ∧ b[j']? = some x := by
  match i, j with
  | 0, j => simp [dpEntry]
  | i + 1, 0 => simp [dpEntry]
  | i + 1, j + 1 =>
    rcases ha : a[i]? with _ | x <;> rcases hb : b[j]? with _ | y
    · simp [dpEntry, ha, hb]
    · simp [dpEntry, ha, hb]
    · simp [dpEntry, ha, hb]
    · by_cases hxy : x = y
      · subst hxy
        simp [dpEntry, ha, hb]
      · simp [dpEntry, ha, hb, hxy]

theorem two_le_dpEntry_succ_iff {α : Type} [DecidableEq α] (a b : List α) (i j : Nat) :
    2 ≤ dpEntry a b (i + 1) (j + 1) ↔
      (∃ x, a[i]? = some x ∧ b[j]? = some x) ∧ 1 ≤ dpEntry a b i j := by
  rcases ha : a[i]? with _ | x <;> rcases hb : b[j]? with _ | y
  · simp [dpEntry, ha, hb]
  · simp [dpEntry, ha, hb]
  · simp [dpEntry, ha, hb]
  · simp only [dpEntry, ha, hb, Option.some.injEq]
    by_cases hxy : x = y
    · subst hxy
      rw [if_pos rfl]
      constructor
      · intro h
        exact ⟨⟨x, rfl, rfl⟩, by omega⟩
      · rintro ⟨-, h⟩
        omega
    · rw [if_neg hxy]
      constructor
      · intro h
        exact absurd h (by omega)
      · rintro ⟨⟨z, hz1, hz2⟩, -⟩
        exact absurd (hz1.trans hz2.symm) hxy

/-- The dp table of `_compare_signature_sequences` reaches 2 exactly when the
two sequences share a common contiguous substring of length 2. -/
theorem compareSignatureSequences_eq_true_iff {α : Type} [DecidableEq α] (a b : List α) :
    compareSignatureSequences a b = true ↔
      ∃ k l x y, a[k]? = some x ∧ b[l]? = some x ∧
        a[k + 1]? = some y ∧ b[l + 1]? = some y := by
  unfold compareSignatureSequences maxRunLength
  rw [decide_eq_true_iff, le_foldr_max (by omega)]
  constructor
  · rintro ⟨v, hv, h2v⟩
    rw [List.mem_map] at hv
    obtain ⟨i, hi, rfl⟩ := hv
    rw [le_foldr_max (by omega)] at h2v
    obtain ⟨w, hw, h2w⟩ := h2v
    rw [List.mem_map] at hw
    obtain ⟨j, hj, rfl⟩ := hw
    rw [two_le_dpEntry_succ_iff] at h2w
    obtain ⟨⟨y, hay, hby⟩, h1⟩ := h2w
    rw [one_le_dpEntry_iff] at h1
    obtain ⟨i', j', x, rfl, rfl, hax, hbx⟩ := h1
    exact ⟨i', j', x, y, hax, hbx, hay, hby⟩
  · rintro ⟨k, l, x, y, hak, hbk, hak1, hbk1⟩
    have hka : k + 1 < a.length := (List.getElem?_eq_some_iff.mp hak1).1
    have hlb : l + 1 < b.length := (List.getElem?_eq_some_iff.mp hbk1).1
    refine ⟨((List.range b.length).map
      (fun j => dpEntry a b (k + 1 + 1) (j + 1))).foldr max 0, ?_, ?_⟩
    · exact List.mem_map.mpr ⟨k + 1, List.mem_range.mpr hka, rfl⟩
    · rw [le_foldr_max (by omega)]
      refine ⟨dpEntry a b (k + 1 + 1) (l + 1 + 1),
        List.mem_map.mpr ⟨l + 1, List.mem_range.mpr hlb, rfl⟩, ?_⟩
      rw [two_le_dpEntry_succ_iff]
      exact ⟨⟨y, hak1, hbk1⟩, (one_le_dpEntry_iff a b _ _).mpr ⟨k, l, x, rfl, rfl, hak, hbk⟩⟩

/-- A sequence of length at most 1 can never produce a run of length 2. -/
theorem compareSignatureSequences_short {α : Type} [DecidableEq α]
    (a b : List α) (h : a.length ≤ 1) : compareSignatureSequences a b = false := by
  rw [← Bool.not_eq_true, compareSignatureSequences_eq_true_iff]
  rintro ⟨k, l, x, y, -, -, hak1, -⟩
  have := (List.getElem?_eq_some_iff.mp hak1).1
  omega

/-- Two identical sequences of length at least 2 always run-match. -/
theorem compareSignatureSequences_self {α : Type} [DecidableEq α]
    (a : List α) (h : 2 ≤ a.length) : compareSignatureSequences a a = true := by
  rw [compareSignatureSequences_eq_true_iff]
  exact ⟨0, 0, a.get ⟨0, by omega⟩, a.get ⟨1, by omega⟩,
    by rw [List.get_eq_getElem, List.getElem?_eq_getElem (by omega : 0 < a.length)],
    by rw [List.get_eq_getElem, List.getElem?_eq_getElem (by omega : 0 < a.length)],
    by rw [List.get_eq_getElem, List.getElem?_eq_getElem (by omega : 1 < a.length)],
    by rw [List.get_eq_getElem, List.getElem?_eq_getElem (by omega : 1 < a.length)]⟩

/-- C6: the run-match comparator accepts exactly the pairs of sequences that
share two consecutive equal values (a common contiguous substring of length
≥ 2); a single coincidental match is never enough, and either sequence being
empty forces a rejection. -/
theorem run_match_threshold :
    (∀ a b : List Int, compareSignatureSequences a b = true →
      ∃ k l x y, a[k]? = some x ∧ b[l]? = some x ∧
        a[k + 1]? = some y ∧ b[l + 1]? = some y) ∧
    (∀ a b : List Int, ∀ k l : Nat, ∀ x y : Int,
      a[k]? = some x → b[l]? = some x → a[k + 1]? = some y → b[l + 1]? = some y →
      compareSignatureSequences a b = true) ∧
    (∀ b : List Int, compareSignatureSequences [] b = false ∧
      compareSignatureSequences b [] = false) := by
  refine ⟨?_, ?_, ?_⟩
  · intro a b h
    exact (compareSignatureSequences_eq_true_iff a b).mp h
  · intro a b k l x y h1 h2 h3 h4
    exact (compareSignatureSequences_eq_true_iff a b).mpr ⟨k, l, x, y, h1, h2, h3, h4⟩
  · intro b
    constructor
    · exact compareSignatureSequences_short [] b (by simp)
    · rw [← Bool.not_eq_true, compareSignatureSequences_eq_true_iff]
      rintro ⟨k, l, x, y, -, hb, -, -⟩
      simp at hb

/-- Witness for C6: each part of the threshold theorem exercised on concrete
sequences — `[5,5]` against itself yields a concrete common run, `[3,3]`
run-matches itself, and the empty sequence never matches. -/
theorem run_match_threshold_witness :
    (∃ k l x y, ([5, 5] : List Int)[k]? = some x ∧ ([5, 5] : List Int)[l]? = some x ∧
      ([5, 5] : List Int)[k + 1]? = some y ∧ ([5, 5] : List Int)[l + 1]? = some y) ∧
    compareSignatureSequences ([3, 3] : List Int) [3, 3] = true ∧
    compareSignatureSequences ([] : List Int) [7] = false ∧
    compareSignatureSequences ([7] : List Int) [] = false :=
  ⟨run_match_threshold.1 [5, 5] [5, 5] (by decide),
    run_match_threshold.2.1 [3, 3] [3, 3] 0 0 3 3 rfl rfl rfl rfl,
    (run_match_threshold.2.2 [7]).1, (run_match_threshold.2.2 [7]).2⟩

/-! ### The rotation search -/

/-- C5: the rotation search short-circuits — false as soon as
`len(sig_A) > len(sig_B)`, true as soon as `len(sig_A) == 0`. -/
theorem rotation_search_short_circuit (sigA sigB : List Nat) :
    (sigB.length < sigA.length → findSignatureRotationMatch sigA sigB = false) ∧
    (sigA.length = 0 → findSignatureRotationMatch sigA sigB = true) := by
  constructor
  · intro h
    simp only [findSignatureRotationMatch]
    rw [if_pos h]
  · intro h
    simp only [findSignatureRotationMatch]
    rw [if_neg (by omega), if_pos h]

/-- Witness for C5: a length-3 sequence cannot fit in a length-1 sequence,
and the empty sequence fits anywhere. -/
theorem rotation_search_short_circuit_witness :
    findSignatureRotationMatch [1, 2, 3] [1] = false ∧
    findSignatureRotationMatch [] [5] = true :=
  ⟨(rotation_search_short_circuit [1, 2, 3] [1]).1 (by decide),
    (rotation_search_short_circuit [] [5]).2 rfl⟩

/-- Rotation 0 of a sequence against itself run-matches as soon as the
sequence has at least two columns. -/
theorem findSignatureRotationMatch_self (s : List Nat) (h : 2 ≤ s.length) :
    findSignatureRotationMatch s s = true := by
  simp only [findSignatureRotationMatch]
  rw [if_neg (lt_irrefl _), if_neg (by omega), List.any_eq_true]
  refine ⟨0, List.mem_range.mpr (by omega), ?_⟩
  simp only [List.drop_zero, List.take_zero, List.append_nil]
  rw [if_pos trivial]
  exact compareSignatureSequences_self _ (by simpa using h)

/-- A length-1 signature sequence never matches itself: the single rotation
compares two one-element sequences, which cannot hold a run of length 2. -/
theorem findSignatureRotationMatch_single (s : List Nat) (h : s.length = 1) :
    findSignatureRotationMatch s s = false := by
  simp only [findSignatureRotationMatch]
  rw [if_neg (lt_irrefl _), if_neg (by omega), List.any_eq_false]
  intro r hr
  rw [if_pos trivial, compareSignatureSequences_short _ _ (by simp [h])]
  simp

/-! ### The containment decision engine -/

/-- C9: a 1×1 matrix is never reported as contained in anything, itself
included — its signature sequence has length 1, and the run-match acceptance
needs a common run of length 2. So `compare_graphs(A, A)` is
`("keep_both", None)` for every 1×1 matrix. -/
theorem compare_singleton_keep_both (x : Int) :
    compareGraphs [[x]] [[x]] = ("keep_both", none) := by
  have hm := findSignatureRotationMatch_single (computeColumnSignature [[x]])
    (computeColumnSignature_length [[x]])
  simp only [compareGraphs, hm]
  simp

/-- Counterexample to C2 as stated: reflexivity fails at the 1×1 zero matrix,
where `compare_graphs` returns `("keep_both", None)` — not an "equal"-family
tag, and no matrix is retained. -/
theorem compare_reflexivity_counterexample :
    compareGraphs [[0]] [[0]] = ("keep_both", none) := by
  decide

/-- C2 (amended): for every square matrix with `n ≠ 1`,
`compare_graphs(A, A)` returns `("equal_keep_A", A)`; 1×1 matrices are the
exception (they yield `("keep_both", None)`). -/
theorem compare_reflexivity_amended (A : List (List Int)) (h : A.length ≠ 1) :
    compareGraphs A A = ("equal_keep_A", some A) := by
  rcases Nat.lt_or_ge A.length 1 with h0 | h2
  · have : A = [] := List.length_eq_zero.mp (by omega)
    subst this
    rfl
  · have h2' : 2 ≤ A.length := by omega
    have hsig : 2 ≤ (computeColumnSignature A).length := by
      rw [computeColumnSignature_length]; omega
    have hm := findSignatureRotationMatch_self (computeColumnSignature A) hsig
    simp only [compareGraphs, hm]
    simp

/-- Witness for C2 (amended) at the 2×2 zero matrix. -/
theorem compare_reflexivity_amended_witness :
    compareGraphs [[0, 0], [0, 0]] [[0, 0], [0, 0]] =
      ("equal_keep_A", some [[0, 0], [0, 0]]) :=
  compare_reflexivity_amended [[0, 0], [0, 0]] (by decide)

/-- C3: when the rotation search reports containment in both directions, the
tie-break is the count of 1-entries — strictly more in B keeps B with tag
`equal_keep_B`, otherwise A is kept with tag `equal_keep_A`. -/
theorem mutual_containment_tie_break (A B : List (List Int))
    (hAB : findSignatureRotationMatch (computeColumnSignature A)
      (computeColumnSignature B) = true)
    (hBA : findSignatureRotationMatch (computeColumnSignature B)
      (computeColumnSignature A) = true) :
    (onesCount A < onesCount B → compareGraphs A B = ("equal_keep_B", some B)) ∧
    (onesCount B ≤ onesCount A → compareGraphs A B = ("equal_keep_A", some A)) := by
  simp only [compareGraphs, hAB, hBA, Bool.and_self, if_true]
  constructor
  · intro h
    rw [if_pos h]
  · intro h
    rw [if_neg (Nat.not_lt.mpr h)]

/-- Witness for C3: the 4-node path is mutually contained (per the rotation
heuristic) in the same path plus the edge 0→2, and the richer matrix wins;
the 2×2 zero matrix against itself keeps A. -/
theorem mutual_containment_tie_break_witness :
    compareGraphs [[0, 1, 0, 0], [0, 0, 1, 0], [0, 0, 0, 1], [0, 0, 0, 0]]
        [[0, 1, 1, 0], [0, 0, 1, 0], [0, 0, 0, 1], [0, 0, 0, 0]] =
      ("equal_keep_B", some [[0, 1, 1, 0], [0, 0, 1, 0], [0, 0, 0, 1], [0, 0, 0, 0]]) ∧
    compareGraphs [[0, 0], [0, 0]] [[0, 0], [0, 0]] =
      ("equal_keep_A", some [[0, 0], [0, 0]]) :=
  ⟨(mutual_containment_tie_break _ _ (by decide) (by decide)).1 (by decide),
    (mutual_containment_tie_break _ _ (by decide) (by decide)).2 (by decide)⟩

/-- C10: `compare_graphs` always returns one of the five decision shapes, and
the retained matrix is `None` exactly on `keep_both` — otherwise it is the
unmodified input the tag names. -/
theorem compare_graphs_decision_shape (A B : List (List Int)) :
    (compareGraphs A B = ("equal_keep_B", some B) ∨
     compareGraphs A B = ("equal_keep_A", some A) ∨
     compareGraphs A B = ("keep_B", some B) ∨
     compareGraphs A B = ("keep_A", some A) ∨
     compareGraphs A B = ("keep_both", none)) ∧
    ((compareGraphs A B).2 = none ↔ (compareGraphs A B).1 = "keep_both") := by
  simp only [compareGraphs]
  split_ifs <;> simp_all

/-! ### Normalization of matrix entries (C4) -/

theorem entry_keepExactOnes (M : List (List Int)) (i j : Nat) :
    entry (keepExactOnes M) i j = 1 ↔ entry M i j = 1 := by
  unfold entry keepExactOnes
  rw [List.getElem?_map]
  cases hMi : M[i]? with
  | none => simp
  | some row =>
    simp only [Option.map_some', Option.getD_some]
    rw [List.getElem?_map]
    cases hrj : row[j]? with
    | none => simp
    | some x =>
      simp only [Option.map_some', Option.getD_some]
      by_cases hx : x = 1 <;> simp [hx]

/-- Counterexample to C4 as stated: the entry `2` is nonzero but is *not*
treated as an edge — replacing every nonzero entry by `1` changes the
signature from `[0]` to `[1]` and the adjacency list from `[∅]` to `[{0}]`. -/
theorem nonzero_normalization_counterexample :
    computeColumnSignature [[(2 : Int)]] = [0] ∧
    computeColumnSignature (replaceNonzeroByOne [[(2 : Int)]]) = [1] ∧
    adjacencyMatrixToList [[(2 : Int)]] = [(∅ : Finset Nat)] ∧
    adjacencyMatrixToList (replaceNonzeroByOne [[(2 : Int)]]) = [({0} : Finset Nat)] := by
  refine ⟨by decide, by decide, by decide, by decide⟩

/-- C4 (amended): both the signature encoder and the adjacency-list builder
treat exactly the entries equal to `1` as edges; every other value (zero or
nonzero) counts as "no edge".  A matrix and the matrix obtained by replacing
every non-`1` entry with `0` produce identical signatures and adjacency
lists. -/
theorem only_exact_ones_are_edges (M : List (List Int)) :
    computeColumnSignature (keepExactOnes M) = computeColumnSignature M ∧
    adjacencyMatrixToList (keepExactOnes M) = adjacencyMatrixToList M := by
  have hlen : (keepExactOnes M).length = M.length := by simp [keepExactOnes]
  have hpred : ∀ col, (fun i => entry (keepExactOnes M) i col == 1)
      = (fun i => entry M i col == 1) := by
    intro col
    funext i
    show decide (entry (keepExactOnes M) i col = 1) = decide (entry M i col = 1)
    exact decide_eq_decide.mpr (entry_keepExactOnes M i col)
  constructor
  · simp only [computeColumnSignature, hlen, hpred]
  · simp only [adjacencyMatrixToList, hlen]
    have hset : ∀ i, (Finset.range M.length).filter (fun j => entry (keepExactOnes M) i j = 1)
        = (Finset.range M.length).filter (fun j => entry M i j = 1) := by
      intro i
      apply Finset.filter_congr
      intro j _
      exact entry_keepExactOnes M i j
    simp only [hset]

/-! ### The adjacency-list path and size mismatches (C7) -/

theorem subsetScan_cases (xs : List (Finset Nat)) :
    ∀ ys : List (Finset Nat),
      (∃ b, subsetScan xs ys = .ok b) ∨ subsetScan xs ys = .error "IndexError" := by
  induction xs with
  | nil => exact fun ys => Or.inl ⟨true, rfl⟩
  | cons x xs ih =>
    intro ys
    cases ys with
    | nil => exact Or.inr rfl
    | cons y ys =>
      simp only [subsetScan]
      by_cases h : x ⊆ y
      · rw [if_pos h]
        exact ih ys
      · rw [if_neg h]
        exact Or.inl ⟨false, rfl⟩

/-- Counterexample to C7 as stated: the adjacency-list comparator performs no
size validation.  Given the 2×2 matrix with the single edge 0→0 and the 1×1
empty matrix — different node counts — it returns the ordinary decision
`("keep_A", A)` rather than failing. -/
theorem adj_list_size_mismatch_returns_decision :
    ([[1, 0], [0, 0]] : List (List Int)).length = 2 ∧
    ([[0]] : List (List Int)).length = 1 ∧
    compareGraphsWithAdjList [[1, 0], [0, 0]] [[0]] =
      Except.ok ("keep_A", some [[1, 0], [0, 0]]) := by
  refine ⟨rfl, rfl, rfl⟩

/-- C7 (amended): the adjacency-list comparator performs no size validation
and never produces a `SizeMismatchError` — every outcome, on matched or
mismatched node counts, is either an ordinary decision or a plain
`IndexError` propagated from reading past the shorter adjacency list, as the
2×2 zero matrix against the 1×1 zero matrix shows. -/
theorem adj_list_no_size_mismatch_error :
    (∀ A B : List (List Int),
      (∃ r, compareGraphsWithAdjList A B = Except.ok r) ∨
      compareGraphsWithAdjList A B = Except.error "IndexError") ∧
    compareGraphsWithAdjList [[0, 0], [0, 0]] [[0]] = Except.error "IndexError" := by
  constructor
  · intro A B
    simp only [compareGraphsWithAdjList]
    rcases subsetScan_cases (adjacencyMatrixToList A) (adjacencyMatrixToList B) with
      ⟨b1, h1⟩ | h1 <;> rw [h1]
    · rcases subsetScan_cases (adjacencyMatrixToList B) (adjacencyMatrixToList A) with
        ⟨b2, h2⟩ | h2 <;> rw [h2]
      · cases b1 <;> cases b2 <;> simp
      · exact Or.inr rfl
    · exact Or.inr rfl
  · rfl

end Subgraph

